import Mathlib

/-!
A verification development for the pythereum JSON-RPC client library.

The Python source is shallowly embedded: pure fragments become Lean
functions over an algebraic JSON model, stateful fragments become explicit
state-passing functions or labelled transition systems, and code that can
raise becomes `Except`-valued.  Machine reals (`float` multipliers) are
modelled as exact rationals; the concrete inputs used in counterexamples
are all dyadic, where Python float arithmetic is exact.
-/

namespace Pythereum

/-! ### JSON values (the post-`json.loads` objects handled by `parse_results`) -/

/-- A JSON value, as obtained from `json.loads` over the wire.
Objects are association lists with first-match lookup (Python dict keys are unique). -/
inductive Json where
  | null
  | bool (b : Bool)
  | num (n : Int)
  | str (s : String)
  | arr (items : List Json)
  | obj (fields : List (String × Json))

/-- First-match lookup in a JSON object's field list (Python dict indexing). -/
def jsonLookup (fields : List (String × Json)) (key : String) : Option Json :=
  (fields.find? (fun p => p.1 == key)).map Prod.snd

/-- The exceptions `parse_results` can raise.
`request` embeds `PythereumRequestException` (carrying the JSON-RPC error code and
the message, including any builder suffix); `invalidReturn` embeds
`PythereumInvalidReturnException` (carrying the offending response value in place of
its Python string rendering); `pyError` stands for Python-level errors
(`KeyError`, `TypeError`, ...) that the source does not raise deliberately. -/
inductive RpcError where
  | request (code : Json) (message : String)
  | invalidReturn (res : Json)
  | pyError (message : String)

/-- The suffix appended to an error message when a builder name is supplied:
`"" if builder is None else f" for builder \x7bbuilder\x7d"`. -/
def builderSuffix : Option String → String
  | none => ""
  | some b => " for builder " ++ b

/-- Python's `key in res` for the value shapes `parse_results` can meet:
membership for dicts, substring test for strings, element test for lists,
`TypeError` otherwise. -/
def pyIn (key : String) : Json → Except RpcError Bool
  | .obj fields => .ok (jsonLookup fields key).isSome
  | .str s => .ok (decide (2 ≤ (s.splitOn key).length))
  | .arr items => .ok (items.any (fun j => match j with | .str s => s == key | _ => false))
  | _ => .error (.pyError "argument of type is not iterable")

/-- Python's `res[key]`: dict lookup (`KeyError` when absent), `TypeError` otherwise. -/
def pyGet (key : String) : Json → Except RpcError Json
  | .obj fields =>
    match jsonLookup fields key with
    | some v => .ok v
    | none => .error (.pyError ("KeyError: " ++ key))
  | _ => .error (.pyError "value is not subscriptable")

/-- The non-list body of `parse_results` (rpc.py lines 49-65): optionally unwrap the
`params` envelope of a subscription push, then return `res["result"]` if present,
raise `PythereumRequestException(code, message + suffix)` if an `error` member is
present, and raise `PythereumInvalidReturnException` otherwise. -/
def parse_results_dict (res0 : Json) (is_subscription : Bool) (builder : Option String) :
    Except RpcError Json :=
  let unwrapped : Except RpcError Json :=
    if is_subscription then
      match pyIn "params" res0 with
      | .error e => .error e
      | .ok true => pyGet "params" res0
      | .ok false => .ok res0
    else .ok res0
  match unwrapped with
  | .error e => .error e
  | .ok res =>
    match pyIn "result" res with
    | .error e => .error e
    | .ok true => pyGet "result" res
    | .ok false =>
      match pyIn "error" res with
      | .error e => .error e
      | .ok true =>
        match pyGet "error" res with
        | .error e => .error e
        | .ok err =>
          match pyGet "message" err with
          | .error e => .error e
          | .ok (.str msg) =>
            match pyGet "code" err with
            | .error e => .error e
            | .ok c => .error (.request c (msg ++ builderSuffix builder))
          | .ok _ => .error (.pyError "can only concatenate str to str")
      | .ok false => .error (.invalidReturn res)

mutual

/-- `parse_results` (rpc.py lines 37-65) on an already-decoded wire value: a list is
parsed element-wise (with the default arguments, first raise propagating), any other
value goes through the dict body. -/
def parse_results (res : Json) (is_subscription : Bool) (builder : Option String) :
    Except RpcError Json :=
  match res with
  | .arr items =>
    match parse_results_list items with
    | .ok vs => .ok (.arr vs)
    | .error e => .error e
  | r => parse_results_dict r is_subscription builder

/-- The list comprehension `[parse_results(item) for item in res]`. -/
def parse_results_list : List Json → Except RpcError (List Json)
  | [] => .ok []
  | x :: xs =>
    match parse_results x false none with
    | .error e => .error e
    | .ok v =>
      match parse_results_list xs with
      | .error e => .error e
      | .ok vs => .ok (v :: vs)

end

/-- Modelled from the spec: "a `result` that is itself JSON-encoded text is decoded
once more before return."  The one-additional-JSON-decode the spec describes,
restricted to escape-free JSON string literals (it strips the enclosing double
quotes); `json.loads` itself is not part of this repository's source. -/
def specDecodeJsonText (s : String) : Option String :=
  match s.toList with
  | '"' :: rest =>
    if 1 ≤ rest.length ∧ rest.getLast? = some '"' ∧
        rest.dropLast.all (fun c => c ≠ '"' ∧ c ≠ '\\') then
      some (String.mk rest.dropLast)
    else none
  | _ => none

/-! ### Theorems about `parse_results` -/

/-- C1: for a response object, if it has an `error` member and no `result` member,
`parse_results` raises `PythereumRequestException` carrying exactly the error's code
and message (no builder given); if it has neither `result` nor `error` it raises
`PythereumInvalidReturnException`; if it has a `result` member it returns that value
and raises nothing. -/
theorem parse_results_branches (fields ef : List (String × Json)) (c : Json)
    (m : String) (v : Json) :
    (jsonLookup fields "result" = none → jsonLookup fields "error" = some (.obj ef) →
      jsonLookup ef "message" = some (.str m) → jsonLookup ef "code" = some c →
      parse_results (.obj fields) false none = .error (.request c m))
    ∧ (jsonLookup fields "result" = none → jsonLookup fields "error" = none →
      parse_results (.obj fields) false none = .error (.invalidReturn (.obj fields)))
    ∧ (jsonLookup fields "result" = some v →
      parse_results (.obj fields) false none = .ok v) := by
  refine ⟨fun hr he hm hc => ?_, fun hr he => ?_, fun hr => ?_⟩ <;>
    simp [parse_results, parse_results_dict, pyIn, pyGet, builderSuffix, *]

/-- Witness for C1 at the spec's concrete examples. -/
theorem parse_results_branches_witness :
    parse_results (.obj [("jsonrpc", .str "2.0"), ("id", .num 1),
        ("error", .obj [("code", .num (-32000)), ("message", .str "x")])]) false none
      = .error (.request (.num (-32000)) "x")
    ∧ parse_results (.obj [("jsonrpc", .str "2.0"), ("id", .num 1)]) false none
      = .error (.invalidReturn (.obj [("jsonrpc", .str "2.0"), ("id", .num 1)]))
    ∧ parse_results (.obj [("jsonrpc", .str "2.0"), ("id", .num 1),
        ("result", .str "0x4")]) false none = .ok (.str "0x4") :=
  ⟨(parse_results_branches
      [("jsonrpc", .str "2.0"), ("id", .num 1),
        ("error", .obj [("code", .num (-32000)), ("message", .str "x")])]
      [("code", .num (-32000)), ("message", .str "x")]
      (.num (-32000)) "x" .null).1 rfl rfl rfl rfl,
   (parse_results_branches [("jsonrpc", .str "2.0"), ("id", .num 1)] []
      .null "" .null).2.1 rfl rfl,
   (parse_results_branches
      [("jsonrpc", .str "2.0"), ("id", .num 1), ("result", .str "0x4")] []
      .null "" (.str "0x4")).2.2 rfl⟩

/-- C5 counterexample: a `result` member that is itself JSON-encoded text is
returned verbatim by `parse_results`; it is not decoded an additional time
(the decoded value would have been `"abc"`, but the raw text is returned). -/
theorem parse_results_no_redecode_cex :
    parse_results (.obj [("result", .str "\"abc\"")]) false none
      = .ok (.str "\"abc\"")
    ∧ specDecodeJsonText "\"abc\"" = some "abc"
    ∧ Json.str "\"abc\"" ≠ Json.str "abc" :=
  ⟨rfl, rfl, fun h => by injection h with h2; exact absurd h2 (by decide)⟩

/-- C5 amended: `parse_results` returns the `result` member exactly as it appears in
the response object; in particular a `result` that is a (possibly JSON-encoded) text
string is handed to the caller unchanged.  Only a wire message that arrives as text
is decoded, exactly once, by `json.loads` at entry. -/
theorem parse_results_returns_raw_result (fields : List (String × Json)) (s : String)
    (h : jsonLookup fields "result" = some (.str s)) :
    parse_results (.obj fields) false none = .ok (.str s) := by
  simp [parse_results, parse_results_dict, pyIn, pyGet, h]

/-- Witness for the amended C5. -/
theorem parse_results_returns_raw_result_witness :
    parse_results (.obj [("result", .str "\"abc\"")]) false none
      = .ok (.str "\"abc\"") :=
  parse_results_returns_raw_result [("result", .str "\"abc\"")] "\"abc\"" rfl

/-! ### Subscriptions (`EthRPC.subscribe`, rpc.py lines 422-453) -/

/-- The subscription kinds of `SubscriptionType` (common.py) with their wire values. -/
inductive SubscriptionType where
  | new_heads
  | logs
  | new_pending_transactions
  | syncing
deriving DecidableEq, Repr

/-- The `value` of a `SubscriptionType` member. -/
def SubscriptionType.value : SubscriptionType → String
  | .new_heads => "newHeads"
  | .logs => "logs"
  | .new_pending_transactions => "newPendingTransactions"
  | .syncing => "syncing"

/-- The caller-visible data of a `Subscription` object (rpc.py lines 68-91); the bound
socket is left abstract.  `recv` is an ordinary method available on every such value. -/
structure Subscription where
  subscription_id : String
  subscription_type : SubscriptionType
  max_message_num : Int
deriving DecidableEq, Repr

/-- The externally observable events of one pass through the `subscribe` context
manager: the `Subscription` value handed to the `async with` body, the
`eth_unsubscribe` call, and the `PythereumSubscriptionException` raise (which carries
the subscription kind's wire value in its message). -/
inductive SubscribeEvent where
  | yielded (sub : Subscription)
  | unsubscribed (id : String)
  | raisedSubscriptionError (methodValue : String)
deriving DecidableEq, Repr

/-- The event trace of `EthRPC.subscribe(method, max_message_num)` on a leased socket,
parameterised by the outcome of the inner `eth_subscribe` call (`.error` when
`_get_subscription` raises, `.ok id` when it returns the subscription id `id`).
Mirrors the source: `subscription_id` starts as `""`; inside `try` the id is fetched,
a `Subscription` is built and yielded; in `finally` an empty id raises
`PythereumSubscriptionException` while a non-empty id is unsubscribed. -/
def subscribe_trace (method : SubscriptionType) (max_message_num : Int)
    (subscribeResult : Except RpcError String) : List SubscribeEvent :=
  match subscribeResult with
  | .error _ => [.raisedSubscriptionError method.value]
  | .ok id =>
    .yielded ⟨id, method, max_message_num⟩ ::
      (if id = "" then [.raisedSubscriptionError method.value] else [.unsubscribed id])

/-- C6 at the failing input: when `eth_subscribe` returns the empty subscription id,
`subscribe` still yields the `Subscription` carrying the empty id to the caller (so
`recv` is callable inside the body); the `PythereumSubscriptionException` is raised
only by the `finally` block when the context exits, and no unsubscribe is sent. -/
theorem subscribe_empty_id_yields :
    subscribe_trace .new_heads (-1) (.ok "")
      = [.yielded ⟨"", .new_heads, -1⟩, .raisedSubscriptionError "newHeads"]
    ∧ SubscribeEvent.yielded ⟨"", .new_heads, -1⟩ ∈ subscribe_trace .new_heads (-1) (.ok "") := by
  constructor
  · rfl
  · simp [subscribe_trace]

/-! ### NonceManager (rpc.py lines 133-194) -/

/-- Lookup in the `nonces` dict (addresses are already-normalised `HexStr` keys). -/
def alLookup (m : List (String × Int)) (k : String) : Option Int :=
  (m.find? (fun p => p.1 == k)).map Prod.snd

/-- `nonces[k] = v`: overwrite an existing binding or append a new one. -/
def alSet (m : List (String × Int)) (k : String) (v : Int) : List (String × Int) :=
  match m with
  | [] => [(k, v)]
  | (k0, v0) :: rest => if k0 = k then (k, v) :: rest else (k0, v0) :: alSet rest k v

/-- The result of one `next_nonce` call: the returned nonce, the updated `nonces`
dict, and how many network requests (`eth_getTransactionCount`) were issued. -/
structure NonceStep where
  value : Int
  nonces : List (String × Int)
  networkCalls : Nat
deriving DecidableEq, Repr

/-- `NonceManager.next_nonce` (rpc.py lines 170-181) for a manager holding a live
RPC: an unseen address is seeded from the chain-reported transaction count
(`chain address`, one network call); a seen address is incremented in place with no
network call.  The returned value is the stored `nonces[address]`. -/
def next_nonce (chain : String → Int) (nonces : List (String × Int))
    (address : String) : NonceStep :=
  match alLookup nonces address with
  | none => ⟨chain address, alSet nonces address (chain address), 1⟩
  | some n => ⟨n + 1, alSet nonces address (n + 1), 0⟩

/-- `alLookup` after `alSet` finds the just-written value. -/
theorem alLookup_alSet (m : List (String × Int)) (k : String) (v : Int) :
    alLookup (alSet m k v) k = some v := by
  induction m with
  | nil => simp [alLookup, alSet]
  | cons p rest ih =>
    obtain ⟨k0, v0⟩ := p
    by_cases h : k0 = k
    · simp [alLookup, alSet, h]
    · have hb : (k0 == k) = false := by simpa using h
      simp only [alSet, h, if_false]
      simpa [alLookup, List.find?, hb] using ih

/-- C7: for every address, the first `next_nonce(address)` call (unseen address)
returns exactly the chain-reported transaction count, issues exactly one
`eth_getTransactionCount` request and caches the count; every call for an
already-seen address returns the cached value plus 1, re-caches it, and performs
zero network calls — so the second call returns the count plus 1 with no network
traffic, and so on for every subsequent call. -/
theorem next_nonce_first_then_increment (chain : String → Int)
    (nonces : List (String × Int)) (address : String) (n' : Int) :
    (alLookup nonces address = none →
      (next_nonce chain nonces address).value = chain address
      ∧ (next_nonce chain nonces address).networkCalls = 1
      ∧ alLookup (next_nonce chain nonces address).nonces address
          = some (chain address)
      ∧ (next_nonce chain (next_nonce chain nonces address).nonces address).value
          = chain address + 1
      ∧ (next_nonce chain (next_nonce chain nonces address).nonces
          address).networkCalls = 0)
    ∧ (alLookup nonces address = some n' →
      (next_nonce chain nonces address).value = n' + 1
      ∧ (next_nonce chain nonces address).networkCalls = 0
      ∧ alLookup (next_nonce chain nonces address).nonces address = some (n' + 1)) := by
  constructor
  · intro h
    simp [next_nonce, h, alLookup_alSet]
  · intro h
    simp [next_nonce, h, alLookup_alSet]

/-- Witness for C7 on a concrete chain oracle and an empty cache. -/
theorem next_nonce_first_then_increment_witness :
    ((next_nonce (fun _ => 41) [] "0xab").value = 41
      ∧ (next_nonce (fun _ => 41) [] "0xab").networkCalls = 1
      ∧ alLookup (next_nonce (fun _ => 41) [] "0xab").nonces "0xab" = some 41
      ∧ (next_nonce (fun _ => 41)
          (next_nonce (fun _ => 41) [] "0xab").nonces "0xab").value = 42
      ∧ (next_nonce (fun _ => 41)
          (next_nonce (fun _ => 41) [] "0xab").nonces "0xab").networkCalls = 0)
    ∧ ((next_nonce (fun _ => 41) [("0xab", 41)] "0xab").value = 42
      ∧ (next_nonce (fun _ => 41) [("0xab", 41)] "0xab").networkCalls = 0
      ∧ alLookup (next_nonce (fun _ => 41) [("0xab", 41)] "0xab").nonces "0xab"
          = some 42) :=
  ⟨by
    have h := (next_nonce_first_then_increment (fun _ => 41) [] "0xab" 0).1 rfl
    simpa using h,
   by
    have h := (next_nonce_first_then_increment (fun _ => 41) [("0xab", 41)] "0xab" 41).2 rfl
    simpa using h⟩

/-! ### `EthRPC.get_transaction_receipt` retry loop (rpc.py lines 631-663) -/

/-- The `while msg is None and retries > 0` loop: `msg` is the parsed result of the
most recent request, `sent` counts requests already sent, `responses k` is the parsed
result of the `(k+1)`-th request, and `retries` counts down.  Each iteration sleeps
one time unit and re-sends. -/
def receipt_loop (responses : Nat → Option Json) (msg : Option Json) (sent : Nat) :
    Nat → Option Json × Nat
  | 0 => (msg, sent)
  | retries + 1 =>
    match msg with
    | some v => (some v, sent)
    | none => receipt_loop responses (responses sent) (sent + 1) retries

/-- `get_transaction_receipt` with a caller-specified retry count: one initial
request, then the retry loop.  Returns the final parsed result together with the
total number of `eth_getTransactionReceipt` requests sent. -/
def get_transaction_receipt (responses : Nat → Option Json) (retries : Nat) :
    Option Json × Nat :=
  receipt_loop responses (responses 0) 1 retries

/-- Bound and soundness for the retry loop, for any well-formed entry point:
at entry, `sent ≥ 1` requests are out, the pending message is the answer to request
`sent - 1`, and every earlier request answered `none`. -/
theorem receipt_loop_spec (responses : Nat → Option Json) :
    ∀ (retries sent : Nat),
      1 ≤ sent →
      (∀ i < sent - 1, responses i = none) →
      (receipt_loop responses (responses (sent - 1)) sent retries).2 ≤ sent + retries
      ∧ ((∀ i < sent + retries, responses i = none) →
          receipt_loop responses (responses (sent - 1)) sent retries
            = (none, sent + retries))
      ∧ (∀ v,
          (receipt_loop responses (responses (sent - 1)) sent retries).1 = some v →
          responses ((receipt_loop responses (responses (sent - 1)) sent retries).2 - 1)
              = some v
          ∧ ∀ i < (receipt_loop responses (responses (sent - 1)) sent retries).2 - 1,
              responses i = none) := by
  intro retries
  induction retries with
  | zero =>
    intro sent h1 hprev
    refine ⟨Nat.le_add_right _ _, fun hall => ?_, fun v hv => ?_⟩
    · have hz : responses (sent - 1) = none := hall _ (by omega)
      simp [receipt_loop, hz]
    · simp only [receipt_loop] at hv
      exact ⟨hv, by simpa [receipt_loop] using hprev⟩
  | succ r ih =>
    intro sent h1 hprev
    cases hr : responses (sent - 1) with
    | some v =>
      have heq : receipt_loop responses (some v) sent (r + 1) = (some v, sent) := by
        simp [receipt_loop]
      refine ⟨by rw [heq]; exact Nat.le_add_right _ _, fun hall => ?_, fun w hw => ?_⟩
      · exact absurd (hall (sent - 1) (by omega)) (by simp [hr])
      · rw [heq] at hw
        simp only at hw
        rw [heq]
        exact ⟨by rw [hr, hw], by simpa using hprev⟩
    | none =>
      have hprev' : ∀ i < (sent + 1) - 1, responses i = none := by
        intro i hi
        simp only [Nat.add_sub_cancel] at hi
        rcases Nat.lt_or_ge i (sent - 1) with h | h
        · exact hprev i h
        · have hieq : i = sent - 1 := by omega
          rw [hieq, hr]
      have hrec := ih (sent + 1) (by omega) hprev'
      simp only [Nat.add_sub_cancel] at hrec
      have heq : receipt_loop responses none sent (r + 1)
          = receipt_loop responses (responses sent) (sent + 1) r := by
        simp [receipt_loop]
      have harr : sent + 1 + r = sent + (r + 1) := by omega
      rw [heq]
      refine ⟨by rw [← harr]; exact hrec.1, fun hall => ?_, hrec.2.2⟩
      rw [← harr]
      exact hrec.2.1 (by intro i hi; exact hall i (by omega))

/-- C9: for every response sequence and retry count `r`, `get_transaction_receipt`
sends at most `r + 1` requests; if every available response is null it returns null
after exactly `r + 1` requests; and whenever it returns a non-null result, that
result is the answer to the last request sent and every earlier request (each of
which triggered one sleep-and-retry) answered null, so no request follows a non-null
answer. -/
theorem get_transaction_receipt_retry_policy (responses : Nat → Option Json)
    (retries : Nat) :
    (get_transaction_receipt responses retries).2 ≤ retries + 1
    ∧ ((∀ i ≤ retries, responses i = none) →
        get_transaction_receipt responses retries = (none, retries + 1))
    ∧ (∀ v, (get_transaction_receipt responses retries).1 = some v →
        responses ((get_transaction_receipt responses retries).2 - 1) = some v
        ∧ ∀ i < (get_transaction_receipt responses retries).2 - 1,
            responses i = none) := by
  have h := receipt_loop_spec responses retries 1 (Nat.le_refl 1) (by omega)
  refine ⟨?_, fun hall => ?_, h.2.2⟩
  · simpa [get_transaction_receipt, Nat.add_comm] using h.1
  · have := h.2.1 (by intro i hi; exact hall i (by omega))
    simpa [get_transaction_receipt, Nat.add_comm] using this

/-- Witness for C9: with two null answers then a receipt, three retries send exactly
three requests and return the receipt found by the third. -/
theorem get_transaction_receipt_retry_policy_witness :
    (get_transaction_receipt
        (fun k => if k < 2 then none else some (.str "receipt")) 3).2 ≤ 3 + 1
    ∧ (get_transaction_receipt (fun _ => (none : Option Json)) 3 = (none, 3 + 1))
    ∧ ((fun k => if k < 2 then (none : Option Json) else some (.str "receipt"))
          ((get_transaction_receipt
            (fun k => if k < 2 then none else some (.str "receipt")) 3).2 - 1)
        = some (.str "receipt")) :=
  ⟨(get_transaction_receipt_retry_policy
      (fun k => if k < 2 then none else some (.str "receipt")) 3).1,
   (get_transaction_receipt_retry_policy (fun _ => none) 3).2.1 (fun _ _ => rfl),
   ((get_transaction_receipt_retry_policy
      (fun k => if k < 2 then none else some (.str "receipt")) 3).2.2
      (.str "receipt") rfl).1⟩

/-! ### Python numeric builtins used by the gas managers

`float` arithmetic is modelled over `ℚ`; the multipliers and samples used in the
concrete theorems below are dyadic or integral, where Python doubles are exact. -/

/-- Python's `int(x)`: truncation toward zero. -/
def pyInt (q : ℚ) : ℤ := if 0 ≤ q then ⌊q⌋ else ⌈q⌉

/-- Modelled from the spec: Python's builtin `round` (the spec's "rounded to the
nearest integer" / "round(P × failMultiplier)"): nearest integer, ties to even. -/
def pyRound (q : ℚ) : ℤ :=
  let f := ⌊q⌋
  let d := q - f
  if d < 1 / 2 then f
  else if 1 / 2 < d then f + 1
  else if f % 2 = 0 then f else f + 1

/-! ### The `statistics` stdlib functions used by `NaiveGasManager.suggest` -/

/-- Python `sorted` on an integer sample (stable ascending sort). -/
def pySorted (l : List Int) : List Int := List.insertionSort (fun a b => a ≤ b) l

/-- Python `min` over a nonempty list (`ValueError` on an empty one). -/
def pyListMin : List Int → Option Int
  | [] => none
  | x :: xs => some (xs.foldl min x)

/-- Python `max` over a nonempty list (`ValueError` on an empty one). -/
def pyListMax : List Int → Option Int
  | [] => none
  | x :: xs => some (xs.foldl max x)

/-- `statistics.median`: middle element of the sorted sample for odd length, mean of
the two middle elements for even length; `StatisticsError` on an empty sample. -/
def pyMedian (l : List Int) : Option ℚ :=
  let d := pySorted l
  let n := d.length
  if n = 0 then none
  else if n % 2 = 1 then some ((d.getD (n / 2) 0 : ℤ) : ℚ)
  else some (((d.getD (n / 2 - 1) 0 : ℤ) + (d.getD (n / 2) 0 : ℤ) : ℚ) / 2)

/-- `statistics.mean`: exact sum over length; `StatisticsError` on an empty sample. -/
def pyMean (l : List Int) : Option ℚ :=
  if l.length = 0 then none else some ((l.sum : ℚ) / l.length)

/-- `statistics.mode`: the first-encountered element of maximal multiplicity
(`Counter.most_common` ties resolve to first insertion); `StatisticsError` on an
empty sample. -/
def pyMode (l : List Int) : Option Int :=
  l.find? (fun x => l.all (fun y => l.count y ≤ l.count x))

/-- `statistics.quantiles(data, n=4)` with the default `exclusive` method
(statistics.py): sort, require at least two data points (`StatisticsError`
otherwise), then for `i = 1, 2, 3` take `j = clamp(i*(ld+1) // 4, 1, ld-1)`,
`delta = i*(ld+1) - j*4`, and interpolate
`(data[j-1]*(4-delta) + data[j]*delta) / 4`. -/
def pyQuantiles4 (data : List Int) : Option (List ℚ) :=
  let d := pySorted data
  let ld := d.length
  if ld < 2 then none
  else
    some ((List.range 3).map (fun i0 =>
      let i : ℤ := i0 + 1
      let m : ℤ := ld + 1
      let j0 : ℤ := i * m / 4
      let j : ℤ := if j0 < 1 then 1 else if (ld : ℤ) - 1 < j0 then (ld : ℤ) - 1 else j0
      let delta : ℤ := i * m - j * 4
      (((d.getD (j - 1).toNat 0 : ℤ) : ℚ) * ((4 : ℚ) - (delta : ℚ))
        + ((d.getD j.toNat 0 : ℤ) : ℚ) * (delta : ℚ)) / 4))

/-! ### NaiveGasManager.suggest (gas_managers.py lines 66-102) -/

/-- The `GasStrategy` enum (common.py). -/
inductive GasStrategy where
  | min_price
  | max_price
  | median_price
  | mean_price
  | mode_price
  | upper_quartile_price
  | lower_quartile_price
  | custom
deriving DecidableEq, Repr

/-- The exceptions `suggest` can raise: `statisticsError` and `valueError` are
Python-level errors escaping from the `statistics` builtins, `managerException`
embeds `PythereumManagerException`. -/
inductive ManagerError where
  | statisticsError
  | valueError
  | managerException (message : String)
deriving DecidableEq, Repr

/-- The `match strategy` body of `NaiveGasManager.suggest`, producing the raw `res`
before rounding.  `prices` is the sample: the non-null values of the requested
attribute over the latest block's transactions (the network fetch in
`_get_latest_receipts` is modelled by the caller supplying the sample).  The
quartile branches fall back to `statistics.mean` exactly when
`statistics.quantiles` raises `StatisticsError`; the base-class `custom` branch
raises `PythereumManagerException`.  (The `case _` arm of the source is
unreachable for `GasStrategy` members.) -/
def suggest_res (strategy : GasStrategy) (prices : List Int) : Except ManagerError ℚ :=
  match strategy with
  | .min_price =>
    match pyListMin prices with
    | none => .error .valueError
    | some r => .ok (r : ℚ)
  | .max_price =>
    match pyListMax prices with
    | none => .error .valueError
    | some r => .ok (r : ℚ)
  | .median_price =>
    match pyMedian prices with
    | none => .error .statisticsError
    | some q => .ok q
  | .mean_price =>
    match pyMean prices with
    | none => .error .statisticsError
    | some q => .ok q
  | .mode_price =>
    match pyMode prices with
    | none => .error .statisticsError
    | some r => .ok (r : ℚ)
  | .upper_quartile_price =>
    match pyQuantiles4 prices with
    | some qs => .ok (qs.getD 2 0)
    | none =>
      match pyMean prices with
      | none => .error .statisticsError
      | some q => .ok q
  | .lower_quartile_price =>
    match pyQuantiles4 prices with
    | some qs => .ok (qs.getD 0 0)
    | none =>
      match pyMean prices with
      | none => .error .statisticsError
      | some q => .ok q
  | .custom => .error (.managerException "Custom pricing strategy not defined for this class")

/-- `NaiveGasManager.suggest`: the strategy reduction followed by `round(res)`. -/
def suggest (strategy : GasStrategy) (prices : List Int) : Except ManagerError Int :=
  match suggest_res strategy prices with
  | .ok q => .ok (pyRound q)
  | .error e => .error e

/-! ### InformedGasManager feedback hooks (gas_managers.py lines 228-245) -/

/-- The price state of an `InformedGasManager`: the `prices` dict entries together
with the two multipliers (`float`s, modelled as exact rationals).  The `max_prices`
ceilings are applied only in `fill_transaction` and are omitted here. -/
structure InformedGasManager where
  gas : Int
  maxFeePerGas : Int
  maxPriorityFeePerGas : Int
  fail_multiplier : ℚ
  success_multiplier : ℚ
deriving DecidableEq, Repr

/-- `gas_fail`: `prices["gas"] = int(fail_multiplier * prices["gas"])`. -/
def gas_fail (s : InformedGasManager) : InformedGasManager :=
  { s with gas := pyInt (s.fail_multiplier * s.gas) }

/-- `execution_fail`: `prices["maxPriorityFeePerGas"] =
int(fail_multiplier * prices["maxPriorityFeePerGas"])`, then
`prices["maxFeePerGas"] = max(prices["maxFeePerGas"], prices["maxPriorityFeePerGas"])`. -/
def execution_fail (s : InformedGasManager) : InformedGasManager :=
  let p := pyInt (s.fail_multiplier * s.maxPriorityFeePerGas)
  { s with maxPriorityFeePerGas := p, maxFeePerGas := max s.maxFeePerGas p }

/-- `execution_success`: the same update with `success_multiplier`. -/
def execution_success (s : InformedGasManager) : InformedGasManager :=
  let p := pyInt (s.success_multiplier * s.maxPriorityFeePerGas)
  { s with maxPriorityFeePerGas := p, maxFeePerGas := max s.maxFeePerGas p }

/-! ### Theorems about the gas managers -/

/-- C3 counterexample: over the 3-element sample `[10, 20, 30]`,
`suggest(upperQuartile)` returns 30 (the exclusive-method quantile is defined from
2 data points up), not the mean 20 the claim requires: the quartile strategies do
not fall back to `mean` for samples of size 2 or 3. -/
theorem suggest_upper_quartile_three_points_cex :
    suggest .upper_quartile_price [10, 20, 30] = .ok 30
    ∧ suggest .mean_price [10, 20, 30] = .ok 20
    ∧ suggest .upper_quartile_price [10, 20, 30] ≠ suggest .mean_price [10, 20, 30] := by
  have hs : pySorted [10, 20, 30] = [10, 20, 30] := by
    simp [pySorted, List.insertionSort, List.orderedInsert]
  have hq : pyQuantiles4 [10, 20, 30] = some [10, 20, 30] := by
    norm_num [pyQuantiles4, hs, List.range_succ]
    constructor
    · norm_num [show Int.toNat 2 = 2 from rfl]
    · norm_num [show Int.toNat 2 = 2 from rfl]

  have h30 : pyRound ((30 : ℤ) : ℚ) = 30 := by norm_num [pyRound]
  have hm : pyMean [10, 20, 30] = some 20 := by norm_num [pyMean]
  have h20 : pyRound (20 : ℚ) = 20 := by norm_num [pyRound]
  refine ⟨?_, ?_, ?_⟩
  · simp [suggest, suggest_res, hq]
    norm_num [pyRound]
  · simp [suggest, suggest_res, hm, h20]
  · simp [suggest, suggest_res, hq, hm, h20]
    norm_num [pyRound]

/-- C3 amended: the quartile strategies fall back to `mean` exactly when the sample
has fewer than 2 points (`statistics.quantiles` raises `StatisticsError` only below
2 data points); for 2- and 3-element samples a genuine exclusive-method quantile is
computed. -/
theorem suggest_quartile_fallback_below_two (prices : List Int)
    (h : prices.length < 2) :
    suggest .upper_quartile_price prices = suggest .mean_price prices
    ∧ suggest .lower_quartile_price prices = suggest .mean_price prices := by
  have hlen : (pySorted prices).length = prices.length :=
    List.length_insertionSort _ _
  have hq : pyQuantiles4 prices = none := by
    simp only [pyQuantiles4, hlen]
    rw [if_pos h]
  cases hm : pyMean prices <;>
    simp [suggest, suggest_res, hq, hm]

/-- Witness for the amended C3 on the one-element sample `[7]`. -/
theorem suggest_quartile_fallback_below_two_witness :
    suggest .upper_quartile_price [7] = suggest .mean_price [7]
    ∧ suggest .lower_quartile_price [7] = suggest .mean_price [7] :=
  suggest_quartile_fallback_below_two [7] (by decide)

/-- C4 counterexample: with the default `failMultiplier = 1.25` and priority-fee
estimate 3, `execution_fail` stores `int(1.25 * 3) = 3` (truncation), while the
claim's `round(1.25 * 3) = 4`. -/
theorem execution_fail_not_round_cex :
    (execution_fail ⟨0, 0, 3, 5 / 4, 19 / 20⟩).maxPriorityFeePerGas = 3
    ∧ pyRound ((5 / 4 : ℚ) * ((3 : ℤ) : ℚ)) = 4
    ∧ (execution_fail ⟨0, 0, 3, 5 / 4, 19 / 20⟩).maxPriorityFeePerGas
        ≠ pyRound ((5 / 4 : ℚ) * ((3 : ℤ) : ℚ)) := by
  have hf : ⌊(5 / 4 : ℚ) * ((3 : ℤ) : ℚ)⌋ = 3 := by norm_num [Int.floor_eq_iff]
  have h1 : (execution_fail ⟨0, 0, 3, 5 / 4, 19 / 20⟩).maxPriorityFeePerGas = 3 := by
    norm_num [execution_fail, pyInt, hf]
  have h2 : pyRound ((5 / 4 : ℚ) * ((3 : ℤ) : ℚ)) = 4 := by
    norm_num [pyRound, hf]
  exact ⟨h1, h2, by rw [h1, h2]; decide⟩

/-- C4 amended: `execution_fail` stores `int(failMultiplier × P)` — Python `int`,
i.e. truncation toward zero, not `round` — as the new `maxPriorityFeePerGas`, and
the resulting `maxFeePerGas` is at least the resulting `maxPriorityFeePerGas`. -/
theorem execution_fail_truncates_and_floors (s : InformedGasManager) :
    (execution_fail s).maxPriorityFeePerGas
        = pyInt (s.fail_multiplier * s.maxPriorityFeePerGas)
    ∧ (execution_fail s).maxPriorityFeePerGas ≤ (execution_fail s).maxFeePerGas :=
  ⟨rfl, le_max_right _ _⟩

/-- C8 counterexample: from the reachable state with priority-fee estimate 0 (the
constructor seeds `prices` with zeros), `execution_fail` leaves the post-fail value
`P' = 0` and a subsequent `execution_success` also yields 0, which is not strictly
less than `P'`. -/
theorem execution_success_not_strict_cex :
    (execution_fail ⟨0, 0, 0, 5 / 4, 19 / 20⟩).maxPriorityFeePerGas = 0
    ∧ (execution_success (execution_fail ⟨0, 0, 0, 5 / 4, 19 / 20⟩)).maxPriorityFeePerGas = 0
    ∧ ¬ ((execution_success (execution_fail ⟨0, 0, 0, 5 / 4, 19 / 20⟩)).maxPriorityFeePerGas
          < (execution_fail ⟨0, 0, 0, 5 / 4, 19 / 20⟩).maxPriorityFeePerGas) := by
  have h1 : (execution_fail ⟨0, 0, 0, 5 / 4, 19 / 20⟩).maxPriorityFeePerGas = 0 := by
    simp [execution_fail, pyInt]
  have h2 : (execution_success
      (execution_fail ⟨0, 0, 0, 5 / 4, 19 / 20⟩)).maxPriorityFeePerGas = 0 := by
    simp [execution_success, execution_fail, pyInt]
  exact ⟨h1, h2, by rw [h1, h2]; decide⟩

/-- C8 amended: whenever the post-fail priority-fee estimate `P'` is positive and
the success multiplier lies in `[0, 1)` (the spec's `successMultiplier < 1`; default
0.95), a subsequent `execution_success` yields a `maxPriorityFeePerGas` strictly
below `P'`.  (At `P' = 0` the estimate stays 0.) -/
theorem execution_success_decreases (s : InformedGasManager)
    (h0 : 0 ≤ s.success_multiplier) (h1 : s.success_multiplier < 1)
    (hp : 0 < (execution_fail s).maxPriorityFeePerGas) :
    (execution_success (execution_fail s)).maxPriorityFeePerGas
      < (execution_fail s).maxPriorityFeePerGas := by
  set p := (execution_fail s).maxPriorityFeePerGas with hpdef
  have hmul : (execution_fail s).success_multiplier = s.success_multiplier := rfl
  show pyInt ((execution_fail s).success_multiplier * (p : ℚ)) < p
  rw [hmul]
  have hge : (0 : ℚ) ≤ s.success_multiplier * (p : ℚ) :=
    mul_nonneg h0 (by exact_mod_cast hp.le)
  rw [pyInt, if_pos hge]
  have hlt : s.success_multiplier * (p : ℚ) < (p : ℚ) := by
    calc s.success_multiplier * (p : ℚ) < 1 * (p : ℚ) :=
          mul_lt_mul_of_pos_right h1 (by exact_mod_cast hp)
      _ = (p : ℚ) := one_mul _
  exact Int.floor_lt.mpr (by exact_mod_cast hlt)

/-- Witness for the amended C8: fail multiplier 1, success multiplier 1/2,
priority fee 3. -/
theorem execution_success_decreases_witness :
    (execution_success (execution_fail ⟨0, 0, 3, 1, 1 / 2⟩)).maxPriorityFeePerGas
      < (execution_fail ⟨0, 0, 3, 1, 1 / 2⟩).maxPriorityFeePerGas :=
  execution_success_decreases ⟨0, 0, 3, 1, 1 / 2⟩ (by norm_num) (by norm_num)
    (by norm_num [execution_fail, pyInt])

/-! ### WebsocketPool (socket_pool.py)

The pool is embedded as a labelled transition system under the source's
single-threaded cooperative scheduling: each operation is one task's next burst of
execution between suspension points.  Sockets are identified by the order in which
they are opened (`nextSock` is the next fresh identifier).  `idle` is the FIFO
content of the `asyncio.Queue`; `leased` lists the sockets currently held inside a
`get_socket` context, in acquisition order; `waiters` counts tasks suspended in
`Queue.get`.  The `_sockets_used` counter of the source is written but never read
and is omitted. -/

/-- The observable state of a `WebsocketPool`. -/
@[ext]
structure PoolState where
  maxPoolSize : Nat
  connected : Bool
  idle : List Nat
  leased : List Nat
  waiters : Nat
  nextSock : Nat
deriving DecidableEq, Repr

/-- The pool operations an interleaving is made of: `start`, an `acquire` (a task
entering `get_socket` and running up to and including `Queue.get`), a `release`
(a lease holder leaving its `with` block), and `quit`. -/
inductive PoolOp where
  | start
  | acquire
  | release (sock : Nat)
  | quit
deriving DecidableEq, Repr

/-- `WebsocketPool.quit` (lines 73-82): drain and close every idle socket, mark the
pool stopped.  Leased sockets are untouched. -/
def quitEffect (s : PoolState) : PoolState :=
  { s with idle := [], connected := false }

/-- `Queue.put` of one socket: if a getter is waiting, the socket is handed to it
(FIFO wake-up) and that task's `get` returns it; otherwise it joins the idle queue. -/
def putSocket (s : PoolState) (sock : Nat) : PoolState :=
  if 0 < s.waiters then
    { s with leased := s.leased ++ [sock], waiters := s.waiters - 1 }
  else
    { s with idle := s.idle ++ [sock] }

/-- `WebsocketPool.start` (lines 32-52): tear down first if already connected, open
`maxPoolSize` fresh sockets, put each into the queue, and mark the pool connected. -/
def startEffect (s : PoolState) : PoolState :=
  let s1 := if s.connected then quitEffect s else s
  let fresh := List.range' s1.nextSock s1.maxPoolSize
  let s2 := fresh.foldl putSocket s1
  { s2 with nextSock := s1.nextSock + s1.maxPoolSize, connected := true }

/-- The part of `get_socket` after the connectivity check: `await self._sockets.get()`
leases the queue's front socket, or suspends the task when the queue is empty. -/
def acquireCore (s : PoolState) : PoolState :=
  match s.idle with
  | sock :: rest => { s with idle := rest, leased := s.leased ++ [sock] }
  | [] => { s with waiters := s.waiters + 1 }

/-- `WebsocketPool.get_socket` entry (lines 54-67): auto-start when not connected,
then `get`. -/
def acquireEffect (s : PoolState) : PoolState :=
  acquireCore (if s.connected then s else startEffect s)

/-- The `finally` block of `get_socket` (lines 68-71): a lease holder returns its
socket with `put_nowait`.  A waiting getter receives it directly; otherwise it joins
the idle queue, and a full queue makes `put_nowait` raise `QueueFull` (`none`). -/
def releaseEffect (s : PoolState) (sock : Nat) : Option PoolState :=
  if sock ∈ s.leased then
    if 0 < s.waiters then
      some { s with leased := s.leased.erase sock ++ [sock], waiters := s.waiters - 1 }
    else if s.idle.length < s.maxPoolSize then
      some { s with leased := s.leased.erase sock, idle := s.idle ++ [sock] }
    else none
  else none

/-- One interleaving step. -/
def poolStep (s : PoolState) : PoolOp → Option PoolState
  | .start => some (startEffect s)
  | .acquire => some (acquireEffect s)
  | .release sock => releaseEffect s sock
  | .quit => some (quitEffect s)

/-- A freshly constructed pool of capacity `n` (`__init__`, lines 16-30). -/
def initPool (n : Nat) : PoolState :=
  { maxPoolSize := n, connected := false, idle := [], leased := [],
    waiters := 0, nextSock := 0 }

/-- Run a whole interleaving of pool operations. -/
def poolRun (s : PoolState) : List PoolOp → Option PoolState
  | [] => some s
  | op :: ops =>
    match poolStep s op with
    | none => none
    | some s' => poolRun s' ops

/-- A `start` or `quit` step is restart-safe when no socket is leased and no
acquirer is waiting at that instant; other operations are unrestricted. -/
def SafeRestart (s : PoolState) : PoolOp → Prop
  | .start => s.leased = [] ∧ s.waiters = 0
  | .quit => s.leased = [] ∧ s.waiters = 0
  | _ => True

/-- States reachable from a fresh pool of capacity `n` by interleavings whose
explicit `start`/`quit` steps are restart-safe. -/
inductive SafeReach (n : Nat) : PoolState → Prop where
  | init : SafeReach n (initPool n)
  | next (s s' : PoolState) (op : PoolOp) :
      SafeReach n s → SafeRestart s op → poolStep s op = some s' → SafeReach n s'

/-- The inductive pool invariant. -/
def PoolInv (n : Nat) (s : PoolState) : Prop :=
  s.maxPoolSize = n
  ∧ s.idle.Nodup
  ∧ s.leased.Nodup
  ∧ (∀ x ∈ s.idle, x ∉ s.leased)
  ∧ s.idle.length + s.leased.length ≤ n
  ∧ (∀ x ∈ s.idle, x < s.nextSock)
  ∧ (∀ x ∈ s.leased, x < s.nextSock)
  ∧ (s.connected = false → s.idle = [] ∧ s.leased = [] ∧ s.waiters = 0)

/-- `Queue.put` of a socket list while nobody waits appends it to the idle queue. -/
theorem foldl_putSocket_no_waiters (socks : List Nat) :
    ∀ (s : PoolState), s.waiters = 0 →
      socks.foldl putSocket s = { s with idle := s.idle ++ socks } := by
  induction socks with
  | nil => intro s _; simp
  | cons a rest ih =>
    intro s h
    have hstep : putSocket s a = { s with idle := s.idle ++ [a] } := by
      simp [putSocket, h]
    have := ih { s with idle := s.idle ++ [a] } h
    simp only [List.foldl_cons, hstep, this]
    ext <;> simp

/-- `startEffect` on a clean state (no waiters; idle empty unless connected): the
idle queue becomes exactly the `maxPoolSize` fresh sockets. -/
theorem startEffect_clean (s : PoolState) (hw : s.waiters = 0)
    (hi : s.connected = false → s.idle = []) :
    startEffect s =
      { s with idle := List.range' s.nextSock s.maxPoolSize, connected := true,
               nextSock := s.nextSock + s.maxPoolSize } := by
  cases hc : s.connected with
  | true =>
    have h1 : (quitEffect s).waiters = 0 := hw
    have h2 := foldl_putSocket_no_waiters (List.range' s.nextSock s.maxPoolSize)
      (quitEffect s) h1
    simp only [startEffect, hc, if_true, quitEffect] at h2 ⊢
    rw [h2]
    ext <;> simp
  | false =>
    have h2 := foldl_putSocket_no_waiters (List.range' s.nextSock s.maxPoolSize) s hw
    simp only [startEffect, hc, if_false, Bool.false_eq_true]
    rw [h2, hi hc]
    ext <;> simp

/-- The invariant holds for a fresh pool. -/
theorem poolInv_init (n : Nat) : PoolInv n (initPool n) := by
  simp [PoolInv, initPool]

/-- The invariant is preserved by every restart-safe step. -/
theorem poolInv_step (n : Nat) (s s' : PoolState) (op : PoolOp)
    (hinv : PoolInv n s) (hsafe : SafeRestart s op)
    (hstep : poolStep s op = some s') : PoolInv n s' := by
  obtain ⟨hmax, hni, hnl, hdisj, hlen, hbi, hbl, hdisc⟩ := hinv
  cases op with
  | start =>
    obtain ⟨hls, hw⟩ := hsafe
    have hclean := startEffect_clean s hw (fun hc => (hdisc hc).1)
    simp only [poolStep, Option.some.injEq] at hstep
    subst hstep
    rw [hclean]
    refine ⟨hmax, List.nodup_range' _ _ 1 Nat.one_pos, ?_, ?_, ?_, ?_, ?_, ?_⟩
    · simp [hls]
    · intro x _; simp [hls]
    · simp [hls, List.length_range', hmax]
    · intro x hx
      have := List.mem_range'_1.mp hx
      simp only
      omega
    · intro x hx; rw [hls] at hx; cases hx
    · intro h; cases h
  | acquire =>
    simp only [poolStep, Option.some.injEq] at hstep
    subst hstep
    cases hc : s.connected with
    | true =>
      have hae : acquireEffect s = acquireCore s := by simp [acquireEffect, hc]
      rw [hae]
      cases hidle : s.idle with
      | nil =>
        simp only [acquireCore, hidle]
        refine ⟨hmax, by simp, hnl, by simp, ?_, by simp, hbl, ?_⟩
        · rw [hidle] at hlen
          simpa using hlen
        · intro h; rw [hc] at h; cases h
      | cons a rest =>
        simp only [acquireCore, hidle]
        have hamem : a ∈ s.idle := by rw [hidle]; exact List.mem_cons_self a rest
        have hane : a ∉ s.leased := hdisj a hamem
        have hni' : (a :: rest).Nodup := by rw [hidle] at hni; exact hni
        have hanotr : a ∉ rest := (List.nodup_cons.mp hni').1
        have hrest : rest.Nodup := (List.nodup_cons.mp hni').2
        refine ⟨hmax, hrest, ?_, ?_, ?_, ?_, ?_, ?_⟩
        · simp [List.nodup_append, hnl, hane, List.Disjoint]
          intro x hx hxa; subst hxa; exact hane hx
        · intro x hx
          simp only [List.mem_append, List.mem_singleton]
          push_neg
          refine ⟨hdisj x (by rw [hidle]; exact List.mem_cons_of_mem a hx), ?_⟩
          intro hxa; exact hanotr (hxa ▸ hx)
        · have hlen' : rest.length + 1 + s.leased.length ≤ n := by
            have := hlen; rw [hidle] at this; simpa using this
          simp only [List.length_append, List.length_singleton]
          omega
        · intro x hx; exact hbi x (by rw [hidle]; exact List.mem_cons_of_mem a hx)
        · intro x hx
          rcases List.mem_append.mp hx with h | h
          · exact hbl x h
          · rw [List.mem_singleton] at h; subst h; exact hbi _ hamem
        · intro h; rw [hc] at h; cases h
    | false =>
      obtain ⟨hie, hle, hwe⟩ := hdisc hc
      have hclean := startEffect_clean s hwe (fun _ => hie)
      have hae : acquireEffect s = acquireCore (startEffect s) := by
        simp [acquireEffect, hc]
      rw [hae, hclean]
      cases hN : s.maxPoolSize with
      | zero =>
        simp only [acquireCore, hN, List.range']
        refine ⟨hN ▸ hmax, by simp, hnl, ?_, ?_, ?_, ?_, ?_⟩
        · intro x hx; simp at hx
        · simp [hle]
        · intro x hx; simp at hx
        · intro x hx; rw [hle] at hx; simp at hx
        · intro h; cases h
      | succ m =>
        rw [List.range'_succ]
        simp only [acquireCore]
        have hnm : n = m + 1 := by omega
        refine ⟨hN ▸ hmax, List.nodup_range' _ _ 1 Nat.one_pos, ?_, ?_, ?_, ?_, ?_, ?_⟩
        · simp [hle]
        · intro x hx
          have := List.mem_range'_1.mp hx
          simp only [hle, List.nil_append, List.mem_singleton]
          omega
        · simp [hle, List.length_range', hnm]
        · intro x hx
          have := List.mem_range'_1.mp hx
          simp only
          omega
        · intro x hx
          simp only [hle, List.nil_append, List.mem_singleton] at hx
          subst hx
          simp only
          omega
        · intro h; cases h
  | release sock =>
    simp only [poolStep] at hstep
    by_cases hmem : sock ∈ s.leased
    · rw [releaseEffect, if_pos hmem] at hstep
      have hsock_ni : sock ∉ s.idle := fun hx => hdisj sock hx hmem
      have hsock_ne : sock ∉ s.leased.erase sock :=
        fun hm => ((List.Nodup.mem_erase_iff hnl).mp hm).1 rfl
      have h1 : (s.leased.erase sock).length = s.leased.length - 1 :=
        List.length_erase_of_mem hmem
      have h2 : 0 < s.leased.length := List.length_pos_of_mem hmem
      by_cases hw : 0 < s.waiters
      · rw [if_pos hw, Option.some.injEq] at hstep
        subst hstep
        refine ⟨hmax, hni, ?_, ?_, ?_, hbi, ?_, ?_⟩
        · simp [List.nodup_append, hnl.erase _, List.Disjoint]
          intro x hx hxa; subst hxa; exact hsock_ne hx
        · intro x hx
          simp only [List.mem_append, List.mem_singleton]
          push_neg
          exact ⟨fun hxe => hdisj x hx (List.mem_of_mem_erase hxe),
            fun hxs => hsock_ni (hxs ▸ hx)⟩
        · simp only [List.length_append, List.length_singleton]
          omega
        · intro x hx
          rcases List.mem_append.mp hx with h | h
          · exact hbl x (List.mem_of_mem_erase h)
          · rw [List.mem_singleton] at h; subst h; exact hbl _ hmem
        · intro h; exact absurd hmem (by rw [(hdisc h).2.1]; simp)
      · rw [if_neg hw] at hstep
        by_cases hq : s.idle.length < s.maxPoolSize
        · rw [if_pos hq, Option.some.injEq] at hstep
          subst hstep
          refine ⟨hmax, ?_, hnl.erase _, ?_, ?_, ?_, ?_, ?_⟩
          · simp [List.nodup_append, hni, List.Disjoint]
            intro x hx hxa; subst hxa; exact hsock_ni hx
          · intro x hx
            rcases List.mem_append.mp hx with h | h
            · exact fun hxe => hdisj x h (List.mem_of_mem_erase hxe)
            · rw [List.mem_singleton] at h; subst h; exact hsock_ne
          · simp only [List.length_append, List.length_singleton]
            omega
          · intro x hx
            rcases List.mem_append.mp hx with h | h
            · exact hbi x h
            · rw [List.mem_singleton] at h; subst h; exact hbl _ hmem
          · intro x hx; exact hbl x (List.mem_of_mem_erase hx)
          · intro h; exact absurd hmem (by rw [(hdisc h).2.1]; simp)
        · rw [if_neg hq] at hstep; cases hstep
    · rw [releaseEffect, if_neg hmem] at hstep; cases hstep
  | quit =>
    obtain ⟨hls, hw⟩ := hsafe
    simp only [poolStep, Option.some.injEq] at hstep
    subst hstep
    refine ⟨hmax, by simp [quitEffect], ?_, ?_, ?_, ?_, ?_, ?_⟩
    · simpa [quitEffect] using hnl
    · intro x hx; cases hx
    · simp [quitEffect, hls]
    · intro x hx; cases hx
    · intro x hx; exact hbl x hx
    · intro _; exact ⟨rfl, hls, hw⟩

/-- Every restart-safe reachable state satisfies the invariant. -/
theorem safeReach_poolInv (n : Nat) (s : PoolState) (h : SafeReach n s) :
    PoolInv n s := by
  induction h with
  | init => exact poolInv_init n
  | next s s' op _ hsafe hstep ih => exact poolInv_step n s s' op ih hsafe hstep

/-- C2 counterexample: with capacity 1, the interleaving `start; acquire; start;
acquire` — the second `start` is issued while a socket is still leased, which the
source permits ("Restarts the websocket pool if run while already connected") —
reaches a state with 2 simultaneously leased connections, exceeding the capacity. -/
theorem pool_restart_over_capacity_cex :
    (poolRun (initPool 1) [.start, .acquire, .start, .acquire]).map
        (fun s => s.leased.length) = some 2
    ∧ ¬ (2 ≤ 1) := by
  constructor
  · rfl
  · decide

/-- C2 amended: in every interleaving of `start`/`get_socket`/release/`quit` steps
whose `start` and `quit` steps happen only while no connection is leased and no
acquirer is waiting, every reachable state has at most `N` simultaneously leased
connections and every connection is idle-in-pool or leased, never both; moreover an
acquire never fails: issued when no connection is idle it suspends as a waiter, and
a release made while a waiter exists hands the released socket over to the waiter.
(Without the restart restriction the bound fails, see the counterexample.) -/
theorem websocket_pool_invariant (n : Nat) (s : PoolState) (h : SafeReach n s) :
    s.leased.length ≤ n
    ∧ (∀ x ∈ s.idle, x ∉ s.leased)
    ∧ (poolStep s .acquire).isSome
    ∧ (s.connected = true → s.idle = [] →
        acquireEffect s = { s with waiters := s.waiters + 1 })
    ∧ (∀ sock ∈ s.leased, 0 < s.waiters →
        releaseEffect s sock
          = some { s with leased := s.leased.erase sock ++ [sock],
                          waiters := s.waiters - 1 }) := by
  obtain ⟨hmax, hni, hnl, hdisj, hlen, hbi, hbl, hdisc⟩ := safeReach_poolInv n s h
  refine ⟨by omega, hdisj, by simp [poolStep], ?_, ?_⟩
  · intro hc hid
    simp [acquireEffect, hc, acquireCore, hid]
  · intro sock hmem hw
    simp [releaseEffect, hmem, hw]

/-- Witness for the amended C2 at a freshly constructed pool of capacity 2. -/
theorem websocket_pool_invariant_witness :
    (initPool 2).leased.length ≤ 2
    ∧ (∀ x ∈ (initPool 2).idle, x ∉ (initPool 2).leased)
    ∧ (poolStep (initPool 2) .acquire).isSome
    ∧ ((initPool 2).connected = true → (initPool 2).idle = [] →
        acquireEffect (initPool 2)
          = { initPool 2 with waiters := (initPool 2).waiters + 1 })
    ∧ (∀ sock ∈ (initPool 2).leased, 0 < (initPool 2).waiters →
        releaseEffect (initPool 2) sock
          = some { initPool 2 with
                    leased := (initPool 2).leased.erase sock ++ [sock],
                    waiters := (initPool 2).waiters - 1 }) :=
  websocket_pool_invariant 2 (initPool 2) SafeReach.init

/-- C10: `get_socket` on a not-connected pool first performs the full `start()`
sequence (opening `maxPoolSize` fresh connections) and only then leases a socket,
so the acquire succeeds without an explicit prior `start()`: the pool ends up
connected, the first fresh socket is leased to the caller, and the remaining
`n - 1` fresh sockets are idle. -/
theorem get_socket_autostarts (n : Nat) (s : PoolState) (h : SafeReach n s)
    (hc : s.connected = false) (hn : 0 < n) :
    acquireEffect s = acquireCore (startEffect s)
    ∧ (acquireEffect s).connected = true
    ∧ (acquireEffect s).leased = s.leased ++ [s.nextSock]
    ∧ (acquireEffect s).idle.length = n - 1 := by
  obtain ⟨hmax, hni, hnl, hdisj, hlen, hbi, hbl, hdisc⟩ := safeReach_poolInv n s h
  obtain ⟨hie, hle, hwe⟩ := hdisc hc
  have hclean := startEffect_clean s hwe (fun _ => hie)
  have hae : acquireEffect s = acquireCore (startEffect s) := by
    simp [acquireEffect, hc]
  obtain ⟨m, rfl⟩ : ∃ m, n = m + 1 := ⟨n - 1, by omega⟩
  have hM : s.maxPoolSize = m + 1 := hmax
  refine ⟨hae, ?_, ?_, ?_⟩ <;>
  · rw [hae, hclean, hM, List.range'_succ]
    simp [acquireCore, List.length_range', hle]

/-- Witness for C10 at a freshly constructed pool of capacity 2. -/
theorem get_socket_autostarts_witness :
    acquireEffect (initPool 2) = acquireCore (startEffect (initPool 2))
    ∧ (acquireEffect (initPool 2)).connected = true
    ∧ (acquireEffect (initPool 2)).leased
        = (initPool 2).leased ++ [(initPool 2).nextSock]
    ∧ (acquireEffect (initPool 2)).idle.length = 2 - 1 :=
  get_socket_autostarts 2 (initPool 2) SafeReach.init rfl (by decide)

end Pythereum
